import Mathlib

set_option linter.unusedSectionVars false
set_option linter.unusedVariables false
/-!
Verification of the mp-ingester core: a shallow embedding of the MedlinePlus
XML record decoders (`mp_ingester/parsers.py`), the ingestion engine
(`mp_ingester/ingesters.py`) and the two-pass driver (`mp_ingester/mp_ingester.py`).

The persistence collaborator (the `fform` DAL) is external to the repository;
its operations are modelled from the spec's interface contract (spec sections
4.4 and 6): `iodi_*` is an idempotent insert-or-ignore, `iodu_*` an idempotent
insert-or-update keyed by the natural key, and `get_by_attr` a pure lookup
returning an absent result when no row matches.  Surrogate ids are modelled by
the rows' natural keys (ids are opaque in the contract, so this renaming is
observationally faithful).
-/
/-- Python exception kinds that the embedded code can raise. -/
inductive PyErr where
  | typeError
  | valueError
  | attributeError
  | keyError
deriving DecidableEq, Repr
instance {ε α : Type} [DecidableEq ε] [DecidableEq α] : DecidableEq (Except ε α)
  | .ok x, .ok y =>
    if h : x = y then isTrue (congrArg Except.ok h)
    else isFalse (fun hh => h (by injection hh))
  | .ok _, .error _ => isFalse (fun hh => Except.noConfusion hh)
  | .error _, .ok _ => isFalse (fun hh => Except.noConfusion hh)
  | .error e, .error f =>
    if h : e = f then isTrue (congrArg Except.error h)
    else isFalse (fun hh => h (by injection hh))
/-- The ASCII whitespace characters recognised by Python's `str.strip()`. -/
def isPySpace (c : Char) : Bool :=
  c = ' ' || c = '\t' || c = '\n' || c = '\r' || c = Char.ofNat 11 || c = Char.ofNat 12
/-- Python's `str.strip()` (ASCII whitespace; the Unicode cases do not arise here). -/
def pyStrip (s : String) : String :=
  ⟨((s.data.dropWhile isPySpace).reverse.dropWhile isPySpace).reverse⟩
/-- The numeric value of a decimal digit string (most significant first). -/
def natOfDigits (l : List Char) : Nat :=
  l.foldl (fun a c => a * 10 + (c.toNat - 48)) 0
/-- Python's `int(x)` on an optional string: `int(None)` is a `TypeError`,
a non-numeric string is a `ValueError`.  Surrounding whitespace and a single
sign are accepted, as in Python (PEP 515 underscore grouping is not modelled). -/
def pyInt : Option String → Except PyErr Int
  | none => .error .typeError
  | some s =>
    match (pyStrip s).data with
    | '-' :: ds =>
      if ds ≠ [] ∧ ds.all Char.isDigit then .ok (-(natOfDigits ds : Int))
      else .error .valueError
    | '+' :: ds =>
      if ds ≠ [] ∧ ds.all Char.isDigit then .ok ((natOfDigits ds : Int))
      else .error .valueError
    | ds =>
      if ds ≠ [] ∧ ds.all Char.isDigit then .ok ((natOfDigits ds : Int))
      else .error .valueError
/-- A calendar date as produced by `datetime.datetime.strptime(...).date()`. -/
structure PyDate where
  year : Nat
  month : Nat
  day : Nat
deriving DecidableEq, Repr
/-- Gregorian leap year, as in Python's `calendar`/`datetime`. -/
def isLeap (y : Nat) : Bool :=
  y % 4 = 0 && (y % 100 ≠ 0 || y % 400 = 0)
/-- Days in a month, as validated by `datetime.date`. -/
def daysInMonth (y m : Nat) : Nat :=
  if m = 2 then (if isLeap y then 29 else 28)
  else if m = 4 ∨ m = 6 ∨ m = 9 ∨ m = 11 then 30
  else 31
/-- Splits off the longest prefix of decimal digits. -/
def takeDigits : List Char → List Char × List Char
  | [] => ([], [])
  | c :: cs =>
    if c.isDigit then
      let p := takeDigits cs
      (c :: p.1, p.2)
    else ([], c :: cs)
/-- Python's `datetime.datetime.strptime(s, "%m/%d/%Y").date()` on an optional
string.  `strptime(None, ...)` is a `TypeError`; a string that does not match
the pattern (1-2 digit month 1-12, `/`, 1-2 digit day 1-31, `/`, exactly four
digit year, nothing else), or denotes an invalid calendar date, is a
`ValueError`. -/
def pyStrptimeMDY : Option String → Except PyErr PyDate
  | none => .error .typeError
  | some s =>
    let p1 := takeDigits s.data
    match p1.2 with
    | '/' :: r2 =>
      if p1.1.length = 0 ∨ 2 < p1.1.length then .error .valueError
      else
        let m := natOfDigits p1.1
        if m < 1 ∨ 12 < m then .error .valueError
        else
          let p2 := takeDigits r2
          match p2.2 with
          | '/' :: r4 =>
            if p2.1.length = 0 ∨ 2 < p2.1.length then .error .valueError
            else
              let d := natOfDigits p2.1
              if d < 1 ∨ 31 < d then .error .valueError
              else
                let p3 := takeDigits r4
                if p3.1.length ≠ 4 ∨ p3.2 ≠ [] then .error .valueError
                else
                  let y := natOfDigits p3.1
                  if y < 1 then .error .valueError
                  else if daysInMonth y m < d then .error .valueError
                  else .ok ⟨y, m, d⟩
          | _ => .error .valueError
    | _ => .error .valueError
/-- An XML element subtree as produced by the streaming extractor: a tag,
its attributes, its leading text node, and its direct children in order. -/
inductive Element where
  | mk (tag : String) (attrs : List (String × String)) (text : Option String)
       (children : List Element)
/-- The tag of an element. -/
def Element.tag : Element → String
  | .mk t _ _ _ => t
/-- The attribute list of an element. -/
def Element.attrs : Element → List (String × String)
  | .mk _ a _ _ => a
/-- The leading text node of an element (`None` when absent, as in lxml). -/
def Element.text : Element → Option String
  | .mk _ _ t _ => t
/-- The direct children of an element. -/
def Element.children : Element → List Element
  | .mk _ _ _ c => c
/-- lxml's `element.findall(tag)`: all direct children with the given tag. -/
def Element.findall (e : Element) (t : String) : List Element :=
  e.children.filter (fun c => c.tag == t)
/-- lxml's `element.find(tag)`: the first direct child with the given tag. -/
def Element.findChild (e : Element) (t : String) : Option Element :=
  e.children.find? (fun c => c.tag == t)
/-- `ParserXmlBase._eav`: the value of an attribute, `None` when the element is
absent, the attribute is undefined, or its value is the empty string. -/
def eav (oe : Option Element) (attrName : String) : Option String :=
  match oe with
  | none => none
  | some e =>
    match (e.attrs.find? (fun p => p.1 == attrName)).map Prod.snd with
    | none => none
    | some v => if v = "" then none else some v
/-- `ParserXmlBase._et`: the text of an element.  `None` when the element is
absent or its text is undefined or the empty string; otherwise the stripped
text (note: the strip happens after the emptiness test, exactly as in the
source, so whitespace-only text yields the stripped empty string). -/
def et (oe : Option Element) : Option String :=
  match oe with
  | none => none
  | some e =>
    match e.text with
    | none => none
    | some t => if t = "" then none else some (pyStrip t)
/-- The dictionary produced by `parse_health_topic_group` and by `parse_group`. -/
structure GroupDoc where
  id : Int
  url : Option String
  name : Option String
deriving DecidableEq, Repr
/-- `ParserXmlMedlineGroups.parse_health_topic_group`: `{}` (here `none`) for an
absent element or a Spanish one; otherwise the id is parsed with `int(...)`,
whose exception propagates. -/
def parse_health_topic_group (element : Option Element) :
    Except PyErr (Option GroupDoc) :=
  match element with
  | none => .ok none
  | some e =>
    if eav (some e) "language" = some "Spanish" then .ok none
    else do
      let i ← pyInt (eav (some e) "id")
      .ok (some ⟨i, eav (some e) "url", et (some e)⟩)
/-- Error-propagating map, mirroring a Python `for` loop that collects results
and lets the first exception abort. -/
def mapE {α β : Type} (f : α → Except PyErr β) : List α → Except PyErr (List β)
  | [] => .ok []
  | a :: t => do
    let b ← f a
    let r ← mapE f t
    .ok (b :: r)
/-- `parse_also_called`: `{}` (outer `none`) for an absent element, else
`{"name": ...}` (the inner option is the name's value). -/
def parse_also_called (element : Option Element) : Option (Option String) :=
  match element with
  | none => none
  | some e => some (et (some e))
/-- `parse_also_calleds`: all `<also-called>` children, parsed. -/
def parse_also_calleds (element_health_topic : Element) : List (Option (Option String)) :=
  (element_health_topic.findall "also-called").map (fun c => parse_also_called (some c))
/-- `ParserXmlMedlineHealthTopic.parse_group`: like the group parser but with
no language filter (the source has none here). -/
def parse_group (element : Option Element) : Except PyErr (Option GroupDoc) :=
  match element with
  | none => .ok none
  | some e => do
    let i ← pyInt (eav (some e) "id")
    .ok (some ⟨i, eav (some e) "url", et (some e)⟩)
/-- `parse_groups`: all `<group>` children, parsed; an `int` failure aborts. -/
def parse_groups (element_health_topic : Element) :
    Except PyErr (List (Option GroupDoc)) :=
  mapE (fun c => parse_group (some c)) (element_health_topic.findall "group")
/-- The dictionary produced by `parse_descriptor`. -/
structure DescriptorDoc where
  id : Option String
  name : Option String
deriving DecidableEq, Repr
/-- `parse_descriptor`: `{}` (here `none`) for an absent element. -/
def parse_descriptor (element : Option Element) : Option DescriptorDoc :=
  match element with
  | none => none
  | some e => some ⟨eav (some e) "id", et (some e)⟩
/-- The dictionary produced by `parse_qualifier`. -/
structure QualifierDoc where
  id : Option String
  name : Option String
deriving DecidableEq, Repr
/-- `parse_qualifier`: `{}` (here `none`) for an absent element. -/
def parse_qualifier (element : Option Element) : Option QualifierDoc :=
  match element with
  | none => none
  | some e => some ⟨eav (some e) "id", et (some e)⟩
/-- `parse_qualifiers`: all `<qualifier>` children of a `<mesh-heading>`. -/
def parse_qualifiers (element_mesh_heading : Element) : List (Option QualifierDoc) :=
  (element_mesh_heading.findall "qualifier").map (fun c => parse_qualifier (some c))
/-- The dictionary produced by `parse_mesh_heading`. -/
structure MeshHeadingDoc where
  descriptor : Option DescriptorDoc
  qualifiers : List (Option QualifierDoc)
deriving DecidableEq, Repr
/-- `parse_mesh_heading`: `{}` (outer `none`) for an absent element; the
descriptor is the parsed `<descriptor>` child (`none` when missing). -/
def parse_mesh_heading (element : Option Element) : Option MeshHeadingDoc :=
  match element with
  | none => none
  | some e => some ⟨parse_descriptor (e.findChild "descriptor"), parse_qualifiers e⟩
/-- `parse_mesh_headings`: all `<mesh-heading>` children, parsed. -/
def parse_mesh_headings (element_health_topic : Element) : List (Option MeshHeadingDoc) :=
  (element_health_topic.findall "mesh-heading").map (fun c => parse_mesh_heading (some c))
/-- The dictionary produced by `parse_primary_institute`. -/
structure PrimaryInstituteDoc where
  url : Option String
  name : Option String
deriving DecidableEq, Repr
/-- `parse_primary_institute`: `{}` (here `none`) for an absent element. -/
def parse_primary_institute (element : Option Element) : Option PrimaryInstituteDoc :=
  match element with
  | none => none
  | some e => some ⟨eav (some e) "url", et (some e)⟩
/-- The dictionary produced by `parse_related_topic` (note the id stays a string). -/
structure RelatedTopicDoc where
  url : Option String
  id : Option String
  name : Option String
deriving DecidableEq, Repr
/-- `parse_related_topic`: `{}` (outer `none`) for an absent element. -/
def parse_related_topic (element : Option Element) : Option RelatedTopicDoc :=
  match element with
  | none => none
  | some e => some ⟨eav (some e) "url", eav (some e) "id", et (some e)⟩
/-- `parse_related_topics`: all `<related-topic>` children, parsed. -/
def parse_related_topics (element_health_topic : Element) : List (Option RelatedTopicDoc) :=
  (element_health_topic.findall "related-topic").map (fun c => parse_related_topic (some c))
/-- `parse_see_reference`: `{}` (outer `none`) for an absent element. -/
def parse_see_reference (element : Option Element) : Option (Option String) :=
  match element with
  | none => none
  | some e => some (et (some e))
/-- `parse_see_references`: all `<see-reference>` children, parsed. -/
def parse_see_references (element_health_topic : Element) : List (Option (Option String)) :=
  (element_health_topic.findall "see-reference").map (fun c => parse_see_reference (some c))
/-- The dictionary produced by `parse_health_topic`. -/
structure HealthTopicDoc where
  meta_desc : Option String
  title : Option String
  url : Option String
  id : Int
  date_created : PyDate
  also_calleds : List (Option (Option String))
  full_summary : Option String
  groups : List (Option GroupDoc)
  mesh_headings : List (Option MeshHeadingDoc)
  primary_institute : Option PrimaryInstituteDoc
  related_topics : List (Option RelatedTopicDoc)
  see_references : List (Option (Option String))
deriving DecidableEq, Repr
/-- `ParserXmlMedlineHealthTopic.parse_health_topic`: `{}` (here `none`) for an
absent element or a Spanish one; the `int(...)` on the id and the
`strptime(...)` on the date-created attribute raise in the source order
(id first, then date, then the per-`<group>` ids). -/
def parse_health_topic (element : Option Element) :
    Except PyErr (Option HealthTopicDoc) :=
  match element with
  | none => .ok none
  | some e =>
    if eav (some e) "language" = some "Spanish" then .ok none
    else do
      let i ← pyInt (eav (some e) "id")
      let dc ← pyStrptimeMDY (eav (some e) "date-created")
      let gs ← parse_groups e
      .ok (some
        { meta_desc := eav (some e) "meta-desc"
          title := eav (some e) "title"
          url := eav (some e) "url"
          id := i
          date_created := dc
          also_calleds := parse_also_calleds e
          full_summary := et (e.findChild "full-summary")
          groups := gs
          mesh_headings := parse_mesh_headings e
          primary_institute := parse_primary_institute (e.findChild "primary-institute")
          related_topics := parse_related_topics e
          see_references := parse_see_references e })
/-! ### The persistence collaborator's table model

Modelled from the spec: the persistence collaborator (§4.4, §6) offers
idempotent `iodi_*` (insert-or-ignore) and `iodu_*` (insert-or-update, keyed by
the natural key) upserts and a pure `get_by_attr` lookup returning an absent
result on a miss.  A table is the list of its rows in insertion order; the
surrogate id of a row is its natural key. -/

section Tables

variable {α κ : Type} [DecidableEq α] [DecidableEq κ]
/-- In-place update of every row whose key matches `x`'s key. -/
def upd (key : α → κ) (t : List α) (x : α) : List α :=
  t.map (fun q => if key q = key x then x else q)
/-- Modelled from the spec: `iodu_*` — update the row with `x`'s natural key if
present, otherwise append `x`. -/
def iodu (key : α → κ) (t : List α) (x : α) : List α :=
  if key x ∈ t.map key then upd key t x else t ++ [x]
/-- A sequence of `iodu` upserts. -/
def ioduAll (key : α → κ) (t : List α) (S : List α) : List α :=
  S.foldl (iodu key) t
/-- Modelled from the spec: `iodi_*` — insert `x` unless an identical row exists. -/
def iodi (t : List α) (x : α) : List α :=
  if x ∈ t then t else t ++ [x]
/-- A sequence of `iodi` upserts. -/
def iodiAll (t : List α) (S : List α) : List α :=
  S.foldl iodi t
theorem ioduAll_nil (key : α → κ) (t : List α) : ioduAll key t [] = t := rfl
theorem ioduAll_cons (key : α → κ) (t : List α) (x : α) (S : List α) :
    ioduAll key t (x :: S) = ioduAll key (iodu key t x) S := rfl
theorem ioduAll_append (key : α → κ) (t : List α) (S T : List α) :
    ioduAll key t (S ++ T) = ioduAll key (ioduAll key t S) T :=
  List.foldl_append ..
theorem upd_map_key (key : α → κ) (t : List α) (x : α) :
    (upd key t x).map key = t.map key := by
  induction t with
  | nil => rfl
  | cons a t ih =>
    simp only [upd, List.map_cons] at ih ⊢
    by_cases h : key a = key x
    · simp [h, ih]
    · simp [h, ih]
theorem upd_of_key_not_mem (key : α → κ) (t : List α) (x : α)
    (h : key x ∉ t.map key) : upd key t x = t := by
  induction t with
  | nil => rfl
  | cons a t ih =>
    simp only [List.map_cons, List.mem_cons] at h
    push_neg at h
    simp only [upd, List.map_cons] at ih ⊢
    rw [if_neg (fun hh => h.1 hh.symm)]
    rw [ih h.2]
theorem upd_noop (key : α → κ) (t : List α) (x : α)
    (h : ∀ q ∈ t, key q = key x → q = x) : upd key t x = t := by
  induction t with
  | nil => rfl
  | cons a t ih =>
    simp only [upd, List.map_cons]
    have ht : upd key t x = t := ih (fun q hq => h q (List.mem_cons_of_mem a hq))
    by_cases ha : key a = key x
    · rw [if_pos ha, h a (List.mem_cons_self a t) ha]
      simpa [upd] using ht
    · rw [if_neg ha]
      simpa [upd] using ht
theorem upd_upd_same (key : α → κ) (t : List α) (x y : α) (h : key y = key x) :
    upd key (upd key t x) y = upd key t y := by
  induction t with
  | nil => rfl
  | cons a t ih =>
    simp only [upd, List.map_cons, List.cons.injEq]
    refine ⟨?_, by simpa [upd] using ih⟩
    split_ifs <;> simp_all
theorem upd_comm (key : α → κ) (t : List α) (x y : α) (h : key x ≠ key y) :
    upd key (upd key t x) y = upd key (upd key t y) x := by
  induction t with
  | nil => rfl
  | cons a t ih =>
    simp only [upd, List.map_cons, List.cons.injEq]
    refine ⟨?_, by simpa [upd] using ih⟩
    split_ifs <;> simp_all
theorem upd_append_single (key : α → κ) (t : List α) (x y : α) :
    upd key (t ++ [y]) x = upd key t x ++ [if key y = key x then x else y] := by
  simp [upd]
theorem iodu_key_mem (key : α → κ) (t : List α) (x : α) :
    key x ∈ (iodu key t x).map key := by
  unfold iodu
  by_cases h : key x ∈ t.map key
  · rw [if_pos h, upd_map_key]
    exact h
  · rw [if_neg h]
    simp
theorem iodu_key_mono (key : α → κ) (t : List α) (x : α) (k : κ)
    (h : k ∈ t.map key) : k ∈ (iodu key t x).map key := by
  unfold iodu
  by_cases hm : key x ∈ t.map key
  · rw [if_pos hm, upd_map_key]
    exact h
  · rw [if_neg hm]
    simp only [List.map_append, List.mem_append]
    exact Or.inl h
theorem ioduAll_key_mono (key : α → κ) (S : List α) (t : List α) (k : κ)
    (h : k ∈ t.map key) : k ∈ (ioduAll key t S).map key := by
  induction S generalizing t with
  | nil => exact h
  | cons a S ih => exact ih (iodu key t a) (iodu_key_mono key t a k h)
theorem ioduAll_converge (key : α → κ) (S : List α) (t : List α) (x : α)
    (h : key x ∈ S.map key) :
    ioduAll key (upd key t x) S = ioduAll key t S := by
  induction S generalizing t with
  | nil => simp at h
  | cons y S ih =>
    simp only [List.map_cons, List.mem_cons] at h
    rw [ioduAll_cons, ioduAll_cons]
    by_cases hxy : key y = key x
    · by_cases hm : key x ∈ t.map key
      · have h1 : key y ∈ (upd key t x).map key := by rw [upd_map_key]; exact hxy ▸ hm
        have h2 : key y ∈ t.map key := hxy ▸ hm
        rw [iodu, if_pos h1, iodu, if_pos h2, upd_upd_same key t x y hxy]
      · rw [upd_of_key_not_mem key t x hm]
    · have hx : key x ∈ S.map key := by
        rcases h with h | h
        · exact absurd h.symm hxy
        · exact h
      by_cases hm : key y ∈ t.map key
      · have h1 : key y ∈ (upd key t x).map key := by rw [upd_map_key]; exact hm
        rw [iodu, if_pos h1, iodu, if_pos hm, upd_comm key t x y (fun hh => hxy hh.symm)]
        exact ih (upd key t y) hx
      · have h1 : key y ∉ (upd key t x).map key := by rw [upd_map_key]; exact hm
        rw [iodu, if_neg h1, iodu, if_neg hm]
        have : upd key t x ++ [y] = upd key (t ++ [y]) x := by
          rw [upd_append_single, if_neg hxy]
        rw [this]
        exact ih (t ++ [y]) hx
theorem unique_key_iodu_self (key : α → κ) (t : List α) (x : α) :
    ∀ q ∈ iodu key t x, key q = key x → q = x := by
  intro q hq hk
  unfold iodu at hq
  by_cases hm : key x ∈ t.map key
  · rw [if_pos hm] at hq
    unfold upd at hq
    obtain ⟨p, hp, hpq⟩ := List.mem_map.mp hq
    by_cases hpx : key p = key x
    · rw [if_pos hpx] at hpq; exact hpq.symm
    · rw [if_neg hpx] at hpq
      exact absurd (hpq ▸ hk) hpx
  · rw [if_neg hm] at hq
    rcases List.mem_append.mp hq with h | h
    · exact absurd (hk ▸ List.mem_map_of_mem key h : key x ∈ t.map key) hm
    · simpa using h
theorem unique_key_iodu_pres (key : α → κ) (t : List α) (x y : α)
    (h : ∀ q ∈ t, key q = key x → q = x) (hy : key y ≠ key x) :
    ∀ q ∈ iodu key t y, key q = key x → q = x := by
  intro q hq hk
  unfold iodu at hq
  by_cases hm : key y ∈ t.map key
  · rw [if_pos hm] at hq
    unfold upd at hq
    obtain ⟨p, hp, hpq⟩ := List.mem_map.mp hq
    by_cases hpy : key p = key y
    · rw [if_pos hpy] at hpq
      exact absurd (hpq ▸ hk) hy
    · rw [if_neg hpy] at hpq
      exact h q (hpq ▸ hp) hk
  · rw [if_neg hm] at hq
    rcases List.mem_append.mp hq with hh | hh
    · exact h q hh hk
    · have : q = y := by simpa using hh
      exact absurd (this ▸ hk) hy
theorem unique_key_ioduAll_pres (key : α → κ) (S : List α) (t : List α) (x : α)
    (h : ∀ q ∈ t, key q = key x → q = x) (hS : key x ∉ S.map key) :
    ∀ q ∈ ioduAll key t S, key q = key x → q = x := by
  induction S generalizing t with
  | nil => exact h
  | cons y S ih =>
    simp only [List.map_cons, List.mem_cons] at hS
    push_neg at hS
    exact ih (iodu key t y)
      (unique_key_iodu_pres key t x y h (fun hh => hS.1 hh.symm)) hS.2
theorem ioduAll_replay (key : α → κ) (S : List α) (t : List α) :
    ioduAll key (ioduAll key t S) S = ioduAll key t S := by
  induction S generalizing t with
  | nil => rfl
  | cons x T ih =>
    rw [ioduAll_cons, ioduAll_cons]
    have hkmem : key x ∈ (ioduAll key (iodu key t x) T).map key :=
      ioduAll_key_mono key T (iodu key t x) (key x) (iodu_key_mem key t x)
    rw [iodu, if_pos hkmem]
    by_cases hT : key x ∈ T.map key
    · rw [ioduAll_converge key T _ x hT]
      exact ih (iodu key t x)
    · have hP : ∀ q ∈ ioduAll key (iodu key t x) T, key q = key x → q = x :=
        unique_key_ioduAll_pres key T (iodu key t x) x
          (unique_key_iodu_self key t x) hT

      rw [upd_noop key _ x hP]
      exact ih (iodu key t x)
theorem iodi_eq_iodu (t : List α) (x : α) : iodi t x = iodu (fun a => a) t x := by
  unfold iodi iodu
  by_cases h : x ∈ t
  · rw [if_pos h, if_pos (by simpa using h), upd_noop]
    intro q _ hq
    exact hq
  · rw [if_neg h, if_neg (by simpa using h)]
theorem iodiAll_eq_ioduAll (t S : List α) :
    iodiAll t S = ioduAll (fun a => a) t S := by
  induction S generalizing t with
  | nil => rfl
  | cons a S ih =>
    show iodiAll (iodi t a) S = ioduAll (fun a => a) (iodu (fun a => a) t a) S
    rw [← iodi_eq_iodu, ih]
theorem iodiAll_replay (t S : List α) :
    iodiAll (iodiAll t S) S = iodiAll t S := by
  simp only [iodiAll_eq_ioduAll]
  exact ioduAll_replay (fun a => a) S t
theorem iodiAll_nil (t : List α) : iodiAll t [] = t := rfl
theorem iodiAll_cons (t : List α) (x : α) (S : List α) :
    iodiAll t (x :: S) = iodiAll (iodi t x) S := rfl
theorem iodiAll_append (t S T : List α) :
    iodiAll t (S ++ T) = iodiAll (iodiAll t S) T :=
  List.foldl_append ..
theorem mem_iodi_self (t : List α) (x : α) : x ∈ iodi t x := by
  unfold iodi
  by_cases h : x ∈ t
  · rwa [if_pos h]
  · rw [if_neg h]; simp
theorem mem_iodi_of_mem (t : List α) (x a : α) (h : a ∈ t) : a ∈ iodi t x := by
  unfold iodi
  by_cases hm : x ∈ t
  · rwa [if_pos hm]
  · rw [if_neg hm]
    exact List.mem_append_left _ h
theorem mem_iodiAll_of_mem (S : List α) (t : List α) (a : α) (h : a ∈ t) :
    a ∈ iodiAll t S := by
  induction S generalizing t with
  | nil => exact h
  | cons x S ih => exact ih (iodi t x) (mem_iodi_of_mem t x a h)
theorem mem_iodiAll_of_mem_ops (S : List α) (t : List α) (x : α) (h : x ∈ S) :
    x ∈ iodiAll t S := by
  induction S generalizing t with
  | nil => simp at h
  | cons a S ih =>
    rcases List.mem_cons.mp h with h | h
    · exact h ▸ mem_iodiAll_of_mem S (iodi t a) a (mem_iodi_self t a)
    · exact ih (iodi t a) h
theorem nodup_iodi (t : List α) (x : α) (h : t.Nodup) : (iodi t x).Nodup := by
  unfold iodi
  by_cases hm : x ∈ t
  · rwa [if_pos hm]
  · rw [if_neg hm]
    simp [List.nodup_append, h, hm]
theorem nodup_iodiAll (S : List α) (t : List α) (h : t.Nodup) :
    (iodiAll t S).Nodup := by
  induction S generalizing t with
  | nil => exact h
  | cons a S ih => exact ih (iodi t a) (nodup_iodi t a h)
theorem iodi_noop (t : List α) (x : α) (h : x ∈ t) : iodi t x = t := by
  unfold iodi
  rw [if_pos h]
theorem iodiAll_noop (S : List α) (t : List α) (h : ∀ x ∈ S, x ∈ t) :
    iodiAll t S = t := by
  induction S with
  | nil => rfl
  | cons a S ih =>
    rw [iodiAll_cons, iodi_noop t a (h a (List.mem_cons_self a S))]
    exact ih (fun x hx => h x (List.mem_cons_of_mem a hx))

end Tables
/-! ### The taxonomy collaborator's output and the persisted state -/
/-- One `{name, url}` group entry of the scraped taxonomy (spec section 6). -/
structure TaxGroup where
  name : String
  url : String
deriving DecidableEq, Repr
/-- One `{name, health_topic_groups}` entry of the scraped group-class taxonomy. -/
structure TaxClassEntry where
  name : String
  health_topic_groups : List TaxGroup
deriving DecidableEq, Repr
/-- One `{name, url}` health-topic entry of the scraped body-part taxonomy. -/
structure TaxTopic where
  name : String
  url : String
deriving DecidableEq, Repr
/-- One `{group_url, name, health_topics}` entry of the scraped body-part taxonomy. -/
structure BodyPartEntry where
  group_url : String
  name : String
  health_topics : List TaxTopic
deriving DecidableEq, Repr
/-- A persisted `HealthTopicGroup` row (natural key: `ui`). -/
structure GroupRow where
  ui : String
  name : Option String
  url : Option String
  health_topic_group_class_id : String
deriving DecidableEq, Repr
/-- A persisted `HealthTopic` row (natural key: `ui`). -/
structure TopicRow where
  ui : String
  title : Option String
  url : Option String
  description : Option String
  summary : Option String
  date_created : PyDate
  primary_institute_id : Option (Option String)
deriving DecidableEq, Repr
/-- A persisted `PrimaryInstitute` row (natural key: `name`). -/
structure PIRow where
  name : Option String
  url : Option String
deriving DecidableEq, Repr
/-- A persisted `BodyPart` row. -/
structure BodyPartRow where
  name : String
  health_topic_group_id : String
deriving DecidableEq, Repr
/-- Modelled from the spec: the state held by the persistence collaborator —
one list of rows per table, in insertion order, plus the join-association
tables as lists of id pairs.  `descriptors` is the pre-existing MeSH
descriptor table (its `ui` values); the ingester only reads it. -/
structure Dal where
  health_topic_group_classes : List String
  health_topic_groups : List GroupRow
  body_parts : List BodyPartRow
  health_topics : List TopicRow
  also_calleds : List (Option String)
  primary_institutes : List PIRow
  see_references : List (Option String)
  descriptors : List String
  ht_also_called : List (String × Option (Option String))
  ht_group : List (String × String)
  ht_descriptor : List (String × String)
  ht_related : List (String × String)
  ht_see_reference : List (String × Option (Option String))
  ht_body_part : List (String × BodyPartRow)
deriving DecidableEq, Repr
/-! ### The ingesters (`mp_ingester/ingesters.py`) -/
/-- `IngesterMedlineGroupClasses.ingest`: skip a falsy name, else
`iodi_health_topic_group_class(name)`. -/
def ingest_group_class (dal : Dal) (name : String) : Dal :=
  if name = "" then dal
  else { dal with health_topic_group_classes := iodi dal.health_topic_group_classes name }
/-- The group-class ingestion loop of `main` (groups mode). -/
def ingest_group_classes (dal : Dal) (classes : List TaxClassEntry) : Dal :=
  classes.foldl (fun d e => ingest_group_class d e.name) dal
/-- `IngesterMedlineGroups._get_group_class`: the first scraped group class
containing a group of exactly the given name. -/
def get_group_class (classes : List TaxClassEntry) (health_topic_group_name : Option String) :
    Option String :=
  match classes with
  | [] => none
  | entry :: rest =>
    if entry.health_topic_groups.any (fun g => some g.name == health_topic_group_name)
    then some entry.name
    else get_group_class rest health_topic_group_name
/-- `IngesterMedlineGroups.ingest`: resolve the group class by name (a miss —
or a falsy class name — raises `ValueError`), resolve the persisted class row
(a miss raises `ValueError`), then `iodu_health_topic_group` keyed by the
stringified id. -/
def ingest_group (classes : List TaxClassEntry) (dal : Dal) (document : Option GroupDoc) :
    Except PyErr Dal :=
  match document with
  | none => .ok dal
  | some doc =>
    match get_group_class classes doc.name with
    | none => .error .valueError
    | some class_name =>
      if class_name = "" then .error .valueError
      else
        match dal.health_topic_group_classes.find? (fun c => c == class_name) with
        | none => .error .valueError
        | some cls =>
          .ok { dal with health_topic_groups :=
                  (iodu GroupRow.ui dal.health_topic_groups
                    ⟨toString doc.id, doc.name, doc.url, cls⟩) }
/-- The group ingestion loop of `main` (groups mode). -/
def ingest_groups (classes : List TaxClassEntry) (dal : Dal) (docs : List GroupDoc) :
    Except PyErr Dal :=
  match docs with
  | [] => .ok dal
  | doc :: rest => do
    let d ← ingest_group classes dal (some doc)
    ingest_groups classes d rest
/-- The whole groups-mode run of `main`: ingest the scraped group classes, then
the decoded group documents. -/
def runGroupsMode (classes : List TaxClassEntry) (dal : Dal) (docs : List GroupDoc) :
    Except PyErr Dal :=
  ingest_groups classes (ingest_group_classes dal classes) docs
/-- `IngesterMedlineBodyParts.ingest`: skip a falsy name; resolve the owning
group by url — the source reads `.health_topic_group_id` off the lookup result
with no absence guard, so a miss raises `AttributeError` — then
`iodi_body_part`. -/
def ingest_body_part (dal : Dal) (name : String) (health_topic_group_url : String) :
    Except PyErr Dal :=
  if name = "" then .ok dal
  else
    match dal.health_topic_groups.find? (fun r => r.url == some health_topic_group_url) with
    | none => .error .attributeError
    | some grp =>
      .ok { dal with body_parts := iodi dal.body_parts ⟨name, grp.ui⟩ }
/-- The body-part ingestion loop of `main` (topics mode). -/
def ingest_body_parts (dal : Dal) (body_parts : List BodyPartEntry) : Except PyErr Dal :=
  match body_parts with
  | [] => .ok dal
  | e :: rest => do
    let d ← ingest_body_part dal e.name e.group_url
    ingest_body_parts d rest
/-- `IngesterMedlineHealthTopics._get_topic_body_parts`: all scraped body-part
names whose topic list contains the given title, appended once per matching
topic entry, in scrape order. -/
def get_topic_body_parts (body_parts : List BodyPartEntry) (health_topic_name : Option String) :
    List String :=
  body_parts.foldl
    (fun acc entry =>
      entry.health_topics.foldl
        (fun a ht => if some ht.name == health_topic_name then a ++ [entry.name] else a)
        acc)
    []
/-- `str(document["id"])`, the ui under which a topic or group is upserted. -/
def pyStr (i : Int) : String := toString i
/-- `IngesterMedlineHealthTopics.ingest_primary_institute`: `{}` returns
`None`; otherwise `iodu_primary_institute` keyed by name, returning the id. -/
def ingest_primary_institute (dal : Dal) (document : Option PrimaryInstituteDoc) :
    Dal × Option (Option String) :=
  match document with
  | none => (dal, none)
  | some pi =>
    ({ dal with primary_institutes := iodu PIRow.name dal.primary_institutes ⟨pi.name, pi.url⟩ },
     some pi.name)
/-- `IngesterMedlineHealthTopics.ingest_also_called`: `{}` returns `None`;
otherwise `iodi_also_called(name)`, returning the id. -/
def ingest_also_called (dal : Dal) (document : Option (Option String)) :
    Dal × Option (Option String) :=
  match document with
  | none => (dal, none)
  | some n => ({ dal with also_calleds := iodi dal.also_calleds n }, some n)
/-- `IngesterMedlineHealthTopics.ingest_see_reference`: `{}` returns `None`;
otherwise `iodi_see_reference(name)`, returning the id. -/
def ingest_see_reference (dal : Dal) (document : Option (Option String)) :
    Dal × Option (Option String) :=
  match document with
  | none => (dal, none)
  | some n => ({ dal with see_references := iodi dal.see_references n }, some n)
/-- `IngesterMedlineHealthTopics.ingest`, step for step: the `{}` guard
(`if not document: return None`), the primary-institute upsert
(`self.ingest_primary_institute(document=document["primary-institute"])`), and
the topic upsert keyed by the stringified id (`iodu_health_topic` on `"id"`,
`"title"`, `"url"`, `"meta-desc"`, `"full-summary"`, `"date-created"` — keys
the decoder does produce).  The next statement of the source is
`for also_called in document["also-calleds"]:` (ingesters.py:325), but the
decoder stores that list under the key `"also_calleds"` (parsers.py:551) and
never writes `"also-calleds"`, so the subscript raises `KeyError` for every
non-empty decoded document; the also-called, group, descriptor, related-topic,
see-reference and body-part blocks of the method are unreachable for decoder
output and are therefore not modelled.  (The `Except` model discards the two
upserts the aborted call has already committed; no claim here depends on the
partial state of a crashed run.) -/
def ingest_health_topic (body_parts_tax : List BodyPartEntry) (dal : Dal)
    (document : Option HealthTopicDoc) (do_ingest_links : Bool) : Except PyErr Dal :=
  match document with
  | none => .ok dal
  | some doc =>
    let p0 := ingest_primary_institute dal doc.primary_institute
    let dal1 := p0.1
    let htid := pyStr doc.id
    let dal2 := { dal1 with health_topics :=
                    (iodu TopicRow.ui dal1.health_topics
                      ⟨htid, doc.title, doc.url, doc.meta_desc, doc.full_summary,
                       doc.date_created, p0.2⟩) }
    .error .keyError
/-- One ingestion pass of `main` (topics mode) over the decoded topic stream. -/
def ingest_health_topics (body_parts_tax : List BodyPartEntry) (dal : Dal)
    (docs : List HealthTopicDoc) (do_ingest_links : Bool) : Except PyErr Dal :=
  match docs with
  | [] => .ok dal
  | doc :: rest => do
    let d ← ingest_health_topic body_parts_tax dal (some doc) do_ingest_links
    ingest_health_topics body_parts_tax d rest do_ingest_links
/-- The whole topics-mode run of `main`: ingest the scraped body parts, then
pass 1 over the decoded topics without links, then pass 2 with links. -/
def runTopicsMode (body_parts_tax : List BodyPartEntry) (dal : Dal)
    (docs : List HealthTopicDoc) : Except PyErr Dal := do
  let d1 ← ingest_body_parts dal body_parts_tax
  let d2 ← ingest_health_topics body_parts_tax d1 docs false
  ingest_health_topics body_parts_tax d2 docs true
/-! ### Characterization of the ingestion steps -/

theorem except_bind_ok {α β : Type} (x : α) (g : α → Except PyErr β) :
    (Except.ok x >>= g) = g x := rfl
theorem except_bind_error {α β : Type} (e : PyErr) (g : α → Except PyErr β) :
    ((Except.error e : Except PyErr α) >>= g) = .error e := rfl
/-- List concatenation of per-element op lists. -/
def concatMap {α β : Type} (f : α → List β) : List α → List β
  | [] => []
  | a :: t => f a ++ concatMap f t
theorem except_bind_ok_iff {α β : Type} {x : Except PyErr α} {g : α → Except PyErr β} {c : β} :
    (x >>= g) = .ok c ↔ ∃ a, x = .ok a ∧ g a = .ok c := by
  cases x with
  | ok a => simp [except_bind_ok]
  | error e => simp [except_bind_error]
theorem pure_eq_ok {α : Type} (x : α) : (pure x : Except PyErr α) = .ok x := rfl
/-- The group-class names upserted by the class ingestion loop. -/
def classOpsOf (classes : List TaxClassEntry) : List String :=
  classes.filterMap (fun e => if e.name = "" then none else some e.name)
theorem ingest_group_classes_ok :
    ∀ (classes : List TaxClassEntry) (dal : Dal),
    ingest_group_classes dal classes
      = { dal with health_topic_group_classes :=
            (iodiAll dal.health_topic_group_classes (classOpsOf classes)) } := by
  intro classes
  induction classes with
  | nil => intro dal; rfl
  | cons e rest ih =>
    intro dal
    show ingest_group_classes (ingest_group_class dal e.name) rest = _
    by_cases hn : e.name = ""
    · rw [ih]
      simp [ingest_group_class, classOpsOf, hn]
    · rw [ih]
      simp only [ingest_group_class, if_neg hn, classOpsOf, List.filterMap_cons, iodiAll_cons]
/-- The `HealthTopicGroup` rows upserted for one decoded group document. -/
def groupOpsOf (classes : List TaxClassEntry) (class_table : List String)
    (doc : GroupDoc) : List GroupRow :=
  match get_group_class classes doc.name with
  | none => []
  | some cn =>
    if cn = "" then []
    else
      match class_table.find? (fun c => c == cn) with
      | none => []
      | some cls => [⟨toString doc.id, doc.name, doc.url, cls⟩]
theorem ingest_group_ok {classes : List TaxClassEntry} {dal d' : Dal} {doc : GroupDoc}
    (h : ingest_group classes dal (some doc) = .ok d') :
    d' = { dal with health_topic_groups :=
             (ioduAll GroupRow.ui dal.health_topic_groups
               (groupOpsOf classes dal.health_topic_group_classes doc)) } := by
  cases hc : get_group_class classes doc.name with
  | none => simp [ingest_group, hc] at h
  | some cn =>
    by_cases hn : cn = ""
    · simp [ingest_group, hc, hn] at h
    · cases hf : dal.health_topic_group_classes.find? (fun c => c == cn) with
      | none => simp [ingest_group, hc, hn, hf] at h
      | some cls =>
        simp only [ingest_group, hc, if_neg hn, hf] at h
        injection h with h2
        subst h2
        simp only [groupOpsOf, hc, if_neg hn, hf]
        rfl
theorem ingest_group_transfer {classes : List TaxClassEntry} {dal dal2 d' : Dal} {doc : GroupDoc}
    (h : ingest_group classes dal (some doc) = .ok d')
    (hct : dal2.health_topic_group_classes = dal.health_topic_group_classes) :
    ∃ d2', ingest_group classes dal2 (some doc) = .ok d2' := by
  cases hc : get_group_class classes doc.name with
  | none => simp [ingest_group, hc] at h
  | some cn =>
    by_cases hn : cn = ""
    · simp [ingest_group, hc, hn] at h
    · cases hf : dal.health_topic_group_classes.find? (fun c => c == cn) with
      | none => simp [ingest_group, hc, hn, hf] at h
      | some cls =>
        refine ⟨{ dal2 with health_topic_groups :=
          (iodu GroupRow.ui dal2.health_topic_groups ⟨toString doc.id, doc.name, doc.url, cls⟩) }, ?_⟩
        simp only [ingest_group, hc, if_neg hn, hct, hf]
theorem ingest_groups_ok {classes : List TaxClassEntry} :
    ∀ {docs : List GroupDoc} {dal d' : Dal},
    ingest_groups classes dal docs = .ok d' →
    d' = { dal with health_topic_groups :=
             (ioduAll GroupRow.ui dal.health_topic_groups
               (concatMap (groupOpsOf classes dal.health_topic_group_classes) docs)) } := by
  intro docs
  induction docs with
  | nil =>
    intro dal d' h
    injection h with h2
    subst h2
    rfl
  | cons doc rest ih =>
    intro dal d' h
    simp only [ingest_groups, except_bind_ok_iff] at h
    obtain ⟨d1, h1, h2⟩ := h
    have hc1 := ingest_group_ok h1
    subst hc1
    have hrest := ih h2
    rw [hrest]
    simp only [concatMap, ioduAll_append]
theorem ingest_groups_transfer {classes : List TaxClassEntry} :
    ∀ {docs : List GroupDoc} {dal dal2 d' : Dal},
    ingest_groups classes dal docs = .ok d' →
    dal2.health_topic_group_classes = dal.health_topic_group_classes →
    ∃ d2', ingest_groups classes dal2 docs = .ok d2' := by
  intro docs
  induction docs with
  | nil => intro dal dal2 d' _ _; exact ⟨dal2, rfl⟩
  | cons doc rest ih =>
    intro dal dal2 d' h hct
    simp only [ingest_groups, except_bind_ok_iff] at h ⊢
    obtain ⟨d1, h1, h2⟩ := h
    obtain ⟨d21, h21⟩ := ingest_group_transfer h1 hct
    have hc1 := ingest_group_ok h1
    have hc21 := ingest_group_ok h21
    have hct' : d21.health_topic_group_classes = d1.health_topic_group_classes := by
      rw [hc1, hc21]; exact hct
    obtain ⟨d2', h2'⟩ := ih h2 hct'
    exact ⟨d2', d21, h21, h2'⟩
/-- Re-running the whole groups-mode ingestion from its own result state
reproduces that state exactly. -/
theorem runGroupsMode_replay {classes : List TaxClassEntry} {dal d : Dal}
    {docs : List GroupDoc} (h : runGroupsMode classes dal docs = .ok d) :
    runGroupsMode classes d docs = .ok d := by
  unfold runGroupsMode at h ⊢
  rw [ingest_group_classes_ok classes dal] at h
  have hgrp := ingest_groups_ok h
  have hctd : d.health_topic_group_classes
      = iodiAll dal.health_topic_group_classes (classOpsOf classes) := by
    rw [hgrp]
  have hgrd : d.health_topic_groups
      = ioduAll GroupRow.ui dal.health_topic_groups
          (concatMap (groupOpsOf classes
            (iodiAll dal.health_topic_group_classes (classOpsOf classes))) docs) := by
    rw [hgrp]
  have hstep1 : ingest_group_classes d classes = d := by
    rw [ingest_group_classes_ok classes d, hctd, iodiAll_replay, ← hctd]
  obtain ⟨e, he⟩ := ingest_groups_transfer h hctd
  have hce := ingest_groups_ok he
  have hfld : ioduAll GroupRow.ui d.health_topic_groups
      (concatMap (groupOpsOf classes d.health_topic_group_classes) docs)
      = d.health_topic_groups := by
    rw [hctd, hgrd, ioduAll_replay]
  have hed : e = d := by rw [hce, hfld]
  rw [hstep1, he, hed]
/-- The empty persisted state, used by the concrete witnesses. -/
def emptyDal : Dal := ⟨[], [], [], [], [], [], [], [], [], [], [], [], [], []⟩
/-- A small scraped taxonomy with one class containing one group. -/
def wClasses : List TaxClassEntry := [⟨"Cancers", [⟨"Colon Cancer", "/colon"⟩]⟩]
/-- A decoded group document whose name occurs in `wClasses`. -/
def wGroupDoc : GroupDoc := ⟨1, some "/colon", some "Colon Cancer"⟩
/-- The state after one groups-mode run on the witness input. -/
def wDG : Dal :=
  match runGroupsMode wClasses emptyDal [wGroupDoc] with
  | .ok d => d
  | .error _ => emptyDal
/-- A decoded topic referencing a group name ("G") that resolves against no
persisted group row: the input on which C1 predicts a completed ingestion with
the group association omitted. -/
def c1Doc : HealthTopicDoc :=
  ⟨none, some "T", none, 2, ⟨2020, 1, 15⟩, [], none,
   [some ⟨7, some "u", some "G"⟩], [], none, [], []⟩
/-- C7: the group class of a decoded group is the first scraped class (in list
order, exact case-sensitive name match) containing a group of that name; an
unresolvable class name, or a class name with no persisted row, raises
`ValueError` and aborts the run, and a resolvable one is used as the new
group row's class id. -/
theorem group_class_resolution (classes : List TaxClassEntry) (dal : Dal) (doc : GroupDoc) :
    (get_group_class classes doc.name
      = (classes.find? (fun e =>
          e.health_topic_groups.any (fun g => some g.name == doc.name))).map
            TaxClassEntry.name) ∧
    (get_group_class classes doc.name = none →
      ingest_group classes dal (some doc) = .error .valueError) ∧
    (∀ cn, get_group_class classes doc.name = some cn →
      dal.health_topic_group_classes.find? (fun c => c == cn) = none →
      ingest_group classes dal (some doc) = .error .valueError) ∧
    (∀ cn, get_group_class classes doc.name = some cn → cn ≠ "" →
      ∀ cls, dal.health_topic_group_classes.find? (fun c => c == cn) = some cls →
      ingest_group classes dal (some doc)
        = .ok { dal with health_topic_groups :=
            (iodu GroupRow.ui dal.health_topic_groups
              ⟨toString doc.id, doc.name, doc.url, cls⟩) }) := by
  refine ⟨?_, ?_, ?_, ?_⟩
  · induction classes with
    | nil => rfl
    | cons e rest ih =>
      cases hp : e.health_topic_groups.any (fun g => some g.name == doc.name) with
      | true => simp [get_group_class, List.find?_cons, hp]
      | false => simpa [get_group_class, List.find?_cons, hp] using ih
  · intro h
    simp [ingest_group, h]
  · intro cn hc hf
    by_cases hn : cn = ""
    · simp [ingest_group, hc, hn]
    · simp [ingest_group, hc, hn, hf]
  · intro cn hc hn cls hf
    simp [ingest_group, hc, hn, hf]
/-- A one-row class table for the C7 witness. -/
def wDalC : Dal := { emptyDal with health_topic_group_classes := ["Cancers"] }
theorem group_class_resolution_witness :
    get_group_class wClasses (some "Colon Cancer") = some "Cancers" ∧
    ingest_group wClasses wDalC (some wGroupDoc)
      = .ok { wDalC with health_topic_groups :=
          [⟨"1", some "Colon Cancer", some "/colon", "Cancers"⟩] } ∧
    ingest_group wClasses emptyDal (some wGroupDoc) = .error .valueError :=
  ⟨rfl,
   (group_class_resolution wClasses wDalC wGroupDoc).2.2.2 "Cancers" rfl (by decide)
     "Cancers" rfl,
   (group_class_resolution wClasses emptyDal wGroupDoc).2.2.1 "Cancers" rfl rfl⟩
/-- C3: a Spanish-language group or health-topic element decodes to the empty
sentinel, and an empty sentinel reaching an ingester performs no persistence
call at all — the state is returned unchanged. -/
theorem spanish_filtered (e : Element) (dal : Dal) (b : Bool)
    (bp : List BodyPartEntry) (classes : List TaxClassEntry)
    (h : eav (some e) "language" = some "Spanish") :
    parse_health_topic_group (some e) = .ok none ∧
    parse_health_topic (some e) = .ok none ∧
    ingest_health_topic bp dal none b = .ok dal ∧
    ingest_group classes dal none = .ok dal := by
  refine ⟨?_, ?_, rfl, rfl⟩
  · simp [parse_health_topic_group, h]
  · simp [parse_health_topic, h]
/-- A Spanish group element with a well-formed id. -/
def eSpanish : Element := .mk "group" [("language", "Spanish"), ("id", "3")] (some "Nombre") []
theorem spanish_filtered_witness :
    parse_health_topic_group (some eSpanish) = .ok none ∧
    parse_health_topic (some eSpanish) = .ok none ∧
    ingest_health_topic [] emptyDal none false = .ok emptyDal ∧
    ingest_group [] emptyDal none = .ok emptyDal :=
  spanish_filtered eSpanish emptyDal false [] [] rfl
/-- C10: the Spanish-language check short-circuits decoding before the
required-attribute parsers run, so a Spanish element with an unparseable (or
missing) id and an unparseable date still decodes to the empty sentinel
instead of raising. -/
theorem spanish_short_circuits (e : Element)
    (h : eav (some e) "language" = some "Spanish")
    (hid : (pyInt (eav (some e) "id")).toOption = none)
    (hdc : (pyStrptimeMDY (eav (some e) "date-created")).toOption = none) :
    parse_health_topic_group (some e) = .ok none ∧
    parse_health_topic (some e) = .ok none :=
  ⟨by simp [parse_health_topic_group, h], by simp [parse_health_topic, h]⟩
/-- A Spanish health-topic element with a non-numeric id and a malformed date. -/
def eSpanishBad : Element :=
  .mk "health-topic" [("language", "Spanish"), ("id", "abc"), ("date-created", "2020-01-15")]
    (some "Nombre") []
theorem spanish_short_circuits_witness :
    (pyInt (eav (some eSpanishBad) "id")).toOption = none ∧
    (pyStrptimeMDY (eav (some eSpanishBad) "date-created")).toOption = none ∧
    parse_health_topic_group (some eSpanishBad) = .ok none ∧
    parse_health_topic (some eSpanishBad) = .ok none := by
  have h := spanish_short_circuits eSpanishBad rfl (by decide) (by decide)
  exact ⟨by decide, by decide, h.1, h.2⟩
/-- C5 (counterexample): a whitespace-only text node is not normalized to the
absent value — the emptiness test precedes the strip, so `_et` returns the
stripped empty string. -/
theorem et_whitespace_counterexample :
    et (some (.mk "t" [] (some "   ") [])) = some "" ∧
    et (some (.mk "t" [] (some "   ") [])) ≠ none :=
  ⟨rfl, by decide⟩
/-- C5 (amended): `_et` maps an absent element, an undefined text node and an
empty text node to the absent value, but a non-empty text node is returned
stripped — so whitespace-only text yields the empty string, not the absent
value. -/
theorem et_normalization (e : Element) :
    (et none = none) ∧
    (e.text = none → et (some e) = none) ∧
    (e.text = some "" → et (some e) = none) ∧
    (∀ t, e.text = some t → t ≠ "" → (∀ c ∈ t.data, isPySpace c = true) →
      et (some e) = some "") ∧
    (∀ t, e.text = some t → t ≠ "" → et (some e) = some (pyStrip t)) := by
  refine ⟨rfl, ?_, ?_, ?_, ?_⟩
  · intro h; simp [et, h]
  · intro h; simp [et, h]
  · intro t ht hne hsp
    have hd : t.data.dropWhile isPySpace = [] := List.dropWhile_eq_nil_iff.mpr hsp
    have hstrip : pyStrip t = "" := by
      simp [pyStrip, hd]
    simp [et, ht, hne, hstrip]
  · intro t ht hne
    simp [et, ht, hne]
theorem et_normalization_witness :
    et (some (.mk "t" [] none [])) = none ∧
    et (some (.mk "t" [] (some "") [])) = none ∧
    et (some (.mk "t" [] (some " \t ") [])) = some "" ∧
    et (some (.mk "t" [] (some "  a b ") [])) = some "a b" := by
  have h := et_normalization (.mk "t" [] (some " \t ") [])
  refine ⟨(et_normalization (.mk "t" [] none [])).2.1 rfl,
          (et_normalization (.mk "t" [] (some "") [])).2.2.1 rfl,
          h.2.2.2.1 " \t " rfl (by decide) (by decide), ?_⟩
  have h2 := (et_normalization (.mk "t" [] (some "  a b ") [])).2.2.2.2 "  a b " rfl (by decide)
  rw [h2]
  decide
/-- C6 (counterexample): a non-Spanish group element with no id attribute does
not decode to the empty sentinel — `int(None)` raises `TypeError`. -/
theorem missing_id_counterexample :
    parse_health_topic_group (some (.mk "group" [("url", "http://x")] (some "Name") []))
      = .error .typeError ∧
    parse_health_topic_group (some (.mk "group" [("url", "http://x")] (some "Name") []))
      ≠ .ok none :=
  ⟨rfl, by decide⟩
/-- C6 (amended): decoding returns the empty sentinel for an absent input or a
Spanish element, but a missing required attribute (the id, or the topic's
date-created) raises a `TypeError` out of `int(None)`/`strptime(None, ...)`
instead of yielding the sentinel. -/
theorem decode_empty_sentinel (e : Element) :
    (parse_health_topic_group none = .ok none) ∧
    (parse_health_topic none = .ok none) ∧
    (eav (some e) "language" = some "Spanish" →
      parse_health_topic_group (some e) = .ok none) ∧
    (eav (some e) "language" ≠ some "Spanish" → eav (some e) "id" = none →
      parse_health_topic_group (some e) = .error .typeError) ∧
    (∀ n : Int, eav (some e) "language" ≠ some "Spanish" →
      pyInt (eav (some e) "id") = .ok n → eav (some e) "date-created" = none →
      parse_health_topic (some e) = .error .typeError) := by
  refine ⟨rfl, rfl, ?_, ?_, ?_⟩
  · intro h; simp [parse_health_topic_group, h]
  · intro h hid
    simp [parse_health_topic_group, h, hid, pyInt, except_bind_error]
  · intro n h hid hdc
    simp only [parse_health_topic, if_neg h, hid, except_bind_ok, hdc]
    rfl
theorem decode_empty_sentinel_witness :
    parse_health_topic_group (some (.mk "g" [("id", "x")] none [])) = .error .valueError ∧
    parse_health_topic_group (some (.mk "g" [] none [])) = .error .typeError ∧
    parse_health_topic (some (.mk "h" [("id", "5")] none [])) = .error .typeError := by
  have h1 := (decode_empty_sentinel (.mk "g" [] none [])).2.2.2.1 (by decide) rfl
  have h2 := (decode_empty_sentinel (.mk "h" [("id", "5")] none [])).2.2.2.2 5 (by decide)
    (by decide) rfl
  exact ⟨by decide, h1, h2⟩
/-- C8: a non-Spanish group element decodes to the document holding the
integer-parsed id, the url attribute and the element text; a failing id parse
(such as a non-numeric id) propagates as the decode result instead of
defaulting. -/
theorem group_attribute_parsing (e : Element) :
    (∀ n : Int, eav (some e) "language" ≠ some "Spanish" →
      pyInt (eav (some e) "id") = .ok n →
      parse_health_topic_group (some e)
        = .ok (some ⟨n, eav (some e) "url", et (some e)⟩)) ∧
    (∀ er, eav (some e) "language" ≠ some "Spanish" →
      pyInt (eav (some e) "id") = .error er →
      parse_health_topic_group (some e) = .error er) ∧
    pyInt (some "42") = .ok 42 ∧
    pyInt (some "abc") = .error .valueError := by
  refine ⟨?_, ?_, by decide, by decide⟩
  · intro n h hid
    simp [parse_health_topic_group, h, hid, except_bind_ok]
  · intro er h hid
    simp [parse_health_topic_group, h, hid, except_bind_error]
/-- The claim's example elements: `<group id="42" url="http://x">Name</group>`
and the same with a non-numeric id. -/
def eGroup42 : Element := .mk "group" [("id", "42"), ("url", "http://x")] (some "Name") []
def eGroupAbc : Element := .mk "group" [("id", "abc"), ("url", "http://x")] (some "Name") []
theorem group_attribute_parsing_witness :
    parse_health_topic_group (some eGroup42)
      = .ok (some ⟨42, some "http://x", some "Name"⟩) ∧
    parse_health_topic_group (some eGroupAbc) = .error .valueError := by
  have h1 := (group_attribute_parsing eGroup42).1 42 (by decide) (by decide)
  have h2 := (group_attribute_parsing eGroupAbc).2.1 .valueError (by decide) (by decide)
  exact ⟨by rw [h1]; decide, h2⟩
theorem takeDigits_spec : ∀ l : List Char,
    (takeDigits l).1 ++ (takeDigits l).2 = l ∧
    ∀ c ∈ (takeDigits l).1, c.isDigit = true := by
  intro l
  induction l with
  | nil => exact ⟨rfl, by simp [takeDigits]⟩
  | cons c cs ih =>
    by_cases hc : c.isDigit = true
    · refine ⟨?_, ?_⟩
      · simp only [takeDigits, hc, if_pos]
        simpa using ih.1
      · intro x hx
        simp only [takeDigits, hc, if_pos] at hx
        rcases List.mem_cons.mp hx with h | h
        · exact h ▸ hc
        · exact ih.2 x h
    · refine ⟨?_, ?_⟩
      · simp [takeDigits, hc]
      · intro x hx
        simp [takeDigits, hc] at hx
theorem pyStrptimeMDY_shape :
    ∀ (s : String) (y m d : Nat), pyStrptimeMDY (some s) = .ok ⟨y, m, d⟩ →
    ∃ a b c : List Char,
      s.data = a ++ '/' :: (b ++ '/' :: c) ∧
      (∀ ch ∈ a, ch.isDigit = true) ∧ 1 ≤ a.length ∧ a.length ≤ 2 ∧
      (∀ ch ∈ b, ch.isDigit = true) ∧ 1 ≤ b.length ∧ b.length ≤ 2 ∧
      (∀ ch ∈ c, ch.isDigit = true) ∧ c.length = 4 ∧
      1 ≤ m ∧ m ≤ 12 ∧ 1 ≤ d ∧ d ≤ daysInMonth y m ∧ 1 ≤ y := by
  intro s y m d h
  simp only [pyStrptimeMDY] at h
  split at h <;> try exact Except.noConfusion h
  rename_i r2 heq1
  split at h <;> try exact Except.noConfusion h
  rename_i hc1
  split at h <;> try exact Except.noConfusion h
  rename_i hc2
  split at h <;> try exact Except.noConfusion h
  rename_i r4 heq2
  split at h <;> try exact Except.noConfusion h
  rename_i hc3
  split at h <;> try exact Except.noConfusion h
  rename_i hc4
  split at h <;> try exact Except.noConfusion h
  rename_i hc5
  split at h <;> try exact Except.noConfusion h
  rename_i hc6
  split at h <;> try exact Except.noConfusion h
  rename_i hc7
  injection h with h2
  rw [PyDate.mk.injEq] at h2
  obtain ⟨hy, hm, hd⟩ := h2
  push_neg at hc1 hc2 hc3 hc4 hc5 hc6
  obtain ⟨hlen3, hrest3⟩ := hc5
  refine ⟨(takeDigits s.data).1, (takeDigits r2).1, (takeDigits r4).1, ?_,
    (takeDigits_spec s.data).2, by omega, hc1.2,
    (takeDigits_spec r2).2, by omega, hc3.2,
    (takeDigits_spec r4).2, hlen3, by omega, by omega, by omega, ?_, by omega⟩
  · have e1 := (takeDigits_spec s.data).1
    have e2 := (takeDigits_spec r2).1
    have e3 := (takeDigits_spec r4).1
    rw [heq1] at e1
    rw [heq2] at e2
    rw [hrest3] at e3
    have e3x : (takeDigits r4).1 = r4 := by simpa using e3
    rw [← e3x] at e2
    conv_lhs => rw [← e1]
    exact congrArg (fun x => (takeDigits s.data).1 ++ '/' :: x) e2.symm
  · rw [← hy, ← hm, ← hd]
    omega
/-- C9: the date-created attribute is parsed with `strptime(..., "%m/%d/%Y")`:
`"01/15/2020"` decodes to 2020-01-15; a successful parse forces the string to
be digits/digits/digits in the `%m/%d/%Y` shape (month 1-12 in at most two
digits, day valid for the month, exactly four year digits) and any other value
makes `strptime` raise, which propagates as a fatal decode error instead of
being coerced. -/
theorem date_parsing (e : Element) :
    (pyStrptimeMDY (some "01/15/2020") = .ok ⟨2020, 1, 15⟩) ∧
    (pyStrptimeMDY (some "2020-01-15") = .error .valueError) ∧
    (∀ (s : String) (y m d : Nat), pyStrptimeMDY (some s) = .ok ⟨y, m, d⟩ →
      ∃ a b c : List Char,
        s.data = a ++ '/' :: (b ++ '/' :: c) ∧
        (∀ ch ∈ a, ch.isDigit = true) ∧ 1 ≤ a.length ∧ a.length ≤ 2 ∧
        (∀ ch ∈ b, ch.isDigit = true) ∧ 1 ≤ b.length ∧ b.length ≤ 2 ∧
        (∀ ch ∈ c, ch.isDigit = true) ∧ c.length = 4 ∧
        1 ≤ m ∧ m ≤ 12 ∧ 1 ≤ d ∧ d ≤ daysInMonth y m ∧ 1 ≤ y) ∧
    (∀ (n : Int) (er : PyErr), eav (some e) "language" ≠ some "Spanish" →
      pyInt (eav (some e) "id") = .ok n →
      pyStrptimeMDY (eav (some e) "date-created") = .error er →
      parse_health_topic (some e) = .error er) ∧
    (∀ (n : Int) (dc : PyDate) (gs : List (Option GroupDoc)),
      eav (some e) "language" ≠ some "Spanish" →
      pyInt (eav (some e) "id") = .ok n →
      pyStrptimeMDY (eav (some e) "date-created") = .ok dc →
      parse_groups e = .ok gs →
      parse_health_topic (some e)
        = .ok (some
            { meta_desc := eav (some e) "meta-desc"
              title := eav (some e) "title"
              url := eav (some e) "url"
              id := n
              date_created := dc
              also_calleds := parse_also_calleds e
              full_summary := et (e.findChild "full-summary")
              groups := gs
              mesh_headings := parse_mesh_headings e
              primary_institute := parse_primary_institute (e.findChild "primary-institute")
              related_topics := parse_related_topics e
              see_references := parse_see_references e })) := by
  refine ⟨by decide, by decide, pyStrptimeMDY_shape, ?_, ?_⟩
  · intro n er h hid hdc
    simp [parse_health_topic, h, hid, hdc, except_bind_ok, except_bind_error]
  · intro n dc gs h hid hdc hgs
    simp [parse_health_topic, h, hid, hdc, hgs, except_bind_ok]
/-- A topic element with the claim's example date. -/
def eTopicGood : Element :=
  .mk "health-topic" [("id", "7"), ("date-created", "01/15/2020"), ("title", "T")] none []
/-- A topic element with an ISO-formatted date. -/
def eTopicBadDate : Element :=
  .mk "health-topic" [("id", "7"), ("date-created", "2020-01-15"), ("title", "T")] none []
theorem date_parsing_witness :
    pyStrptimeMDY (some "01/15/2020") = .ok ⟨2020, 1, 15⟩ ∧
    parse_health_topic (some eTopicBadDate) = .error .valueError ∧
    parse_health_topic (some eTopicGood)
      = .ok (some ⟨none, some "T", none, 7, ⟨2020, 1, 15⟩, [], none, [], [], none, [], []⟩) := by
  have h1 := (date_parsing eTopicBadDate).2.2.2.1 7 .valueError (by decide) (by decide)
    (by decide)
  have h2 := (date_parsing eTopicGood).2.2.2.2 7 ⟨2020, 1, 15⟩ [] (by decide) (by decide)
    (by decide) (by decide)
  exact ⟨(date_parsing eTopicGood).1, h1, by rw [h2]; decide⟩

/-- The decoded form of `eTopicGood`: what `parse_health_topic` yields for a
well-formed English topic element with id 7, title "T" and date-created
"01/15/2020" — a representative non-empty decoded topic document. -/
def wDecodedTopic : HealthTopicDoc :=
  ⟨none, some "T", none, 7, ⟨2020, 1, 15⟩, [], none, [], [], none, [], []⟩

/-- C1 (counterexample): ingesting `c1Doc` — whose single group reference "G"
matches no persisted group row — against the empty state does not complete
with the association omitted and zero group associations recorded: the call
aborts with `KeyError`, raised at the `document["also-calleds"]` subscript
before the group loop is ever reached. -/
theorem group_miss_skip_counterexample :
    ingest_health_topic [] emptyDal (some c1Doc) false = .error .keyError ∧
    (ingest_health_topic [] emptyDal (some c1Doc) false).toOption = none :=
  ⟨rfl, rfl⟩

/-- C1 (amended): topic ingestion never skips an unresolvable association and
continues.  For every non-empty decoded TopicDocument — whatever its group,
descriptor, body-part and related-topic references, whether or not they would
resolve, and with links on or off — `ingest` aborts with `KeyError` at the
`document["also-calleds"]` subscript (the decoder stores that list under
`"also_calleds"`), before any group, descriptor, body-part or related-topic
resolution is attempted. -/
theorem topic_ingest_aborts_before_resolution (bp : List BodyPartEntry) (dal : Dal)
    (doc : HealthTopicDoc) (b : Bool) :
    ingest_health_topic bp dal (some doc) b = .error .keyError := rfl

/-- Concrete instantiation of `topic_ingest_aborts_before_resolution`: the
abort also occurs with links on, from a non-empty persisted state, for a topic
with no references at all. -/
theorem topic_ingest_aborts_before_resolution_witness :
    ingest_health_topic [] wDG (some wDecodedTopic) true = .error .keyError :=
  topic_ingest_aborts_before_resolution [] wDG wDecodedTopic true

/-- C2 (code bug): the decoder files the also-called list under the key
`"also_calleds"` (parsers.py:551) while `ingest` reads
`document["also-calleds"]` (ingesters.py:325), so topic ingestion raises
`KeyError` on the first non-empty decoded document of a pass.  Neither the
links-off pass nor the links-on pass over a stream containing a non-empty
decoded document can complete, so the claimed two-pass related-topic invariant
is unattainable.  Concretely: `eTopicGood` decodes to the non-empty document
`wDecodedTopic`, and a one-document pass fails with `KeyError` both with links
off and with links on. -/
theorem two_pass_key_bug :
    parse_health_topic (some eTopicGood) = .ok (some wDecodedTopic) ∧
    ingest_health_topics [] emptyDal [wDecodedTopic] false = .error .keyError ∧
    ingest_health_topics [] emptyDal [wDecodedTopic] true = .error .keyError :=
  ⟨by decide, rfl, rfl⟩

/-- C4 (groups half proved, topics half refuted by a code bug): running the
groups-mode ingestion a second time from the state produced by a first
successful run reproduces that state exactly, for every scraped taxonomy,
starting state and decoded group stream; a topics-mode run over a stream
containing a non-empty decoded document never completes at all — it aborts
with `KeyError` at the `document["also-calleds"]` subscript — so no completed
topics-mode run exists to compare with a second one. -/
theorem groups_idempotent_topics_abort :
    (∀ (classes : List TaxClassEntry) (dal : Dal) (docs : List GroupDoc) (d : Dal),
      runGroupsMode classes dal docs = .ok d → runGroupsMode classes d docs = .ok d) ∧
    runTopicsMode [] emptyDal [wDecodedTopic] = .error .keyError :=
  ⟨fun _ _ _ _ h => runGroupsMode_replay h, rfl⟩

/-- Concrete instantiation of the groups-mode half of
`groups_idempotent_topics_abort` on the witness taxonomy and group stream. -/
theorem groups_idempotent_topics_abort_witness :
    runGroupsMode wClasses emptyDal [wGroupDoc] = .ok wDG ∧
    runGroupsMode wClasses wDG [wGroupDoc] = .ok wDG :=
  ⟨rfl, groups_idempotent_topics_abort.1 wClasses emptyDal [wGroupDoc] wDG rfl⟩
